import Mathlib

/-!
Verification of the queue-socket-provider core: a shallow embedding of the
Postback Queue / Retry Scheduler (`queue.service.ts` and the worker queue
consumer) and of the Connection Registry / Dispatch Engine
(`socket.service.ts` and the `SocketManager` durable object), with proofs
of the specified properties.

JavaScript `Map` and `Set` are embedded as association lists with unique
keys and duplicate-free element lists; `Map.set` replaces the entry when
the key is present and appends otherwise, `Set.add` appends only when the
element is absent, matching insertion-order semantics.
-/

namespace QSP

/-- Embedding of `Map.get`: value at the first matching key. -/
def mget {α β : Type} [DecidableEq α] : List (α × β) → α → Option β
  | [], _ => none
  | (k, v) :: rest, k' => if k = k' then some v else mget rest k'

/-- Embedding of `Map.set`: replace the first entry with this key, or append. -/
def mset {α β : Type} [DecidableEq α] : List (α × β) → α → β → List (α × β)
  | [], k, v => [(k, v)]
  | (k0, v0) :: rest, k, v =>
      if k0 = k then (k, v) :: rest else (k0, v0) :: mset rest k v

/-- Embedding of `Map.delete`: remove the first entry with this key. -/
def mdel {α β : Type} [DecidableEq α] : List (α × β) → α → List (α × β)
  | [], _ => []
  | (k0, v0) :: rest, k => if k0 = k then rest else (k0, v0) :: mdel rest k

/-- Embedding of `Set.add`: append the element when it is not yet present. -/
def sadd {α : Type} [DecidableEq α] (s : List α) (a : α) : List α :=
  if a ∈ s then s else s ++ [a]

/-- Embedding of `Set.delete`. -/
def sdel {α : Type} [DecidableEq α] (s : List α) (a : α) : List α :=
  s.filter (fun x => decide (x ≠ a))

/-- Keys of an association list. -/
def keys {α β : Type} (m : List (α × β)) : List α := m.map Prod.fst

/-! Postback queue model, from `QueueService` (`queue.service.ts`) and the
worker queue consumer (`worker/src/index.ts`). -/

/-- Status of a queued postback, from the `QueuedPostback` interface. -/
inductive QStatus : Type
  | pending
  | processing
  | completed
  | failed
deriving DecidableEq

/-- One queued postback item; only the fields the lifecycle logic touches
(`status`, `retries`, `createdAt`). The HTTP fields (`postbackUrl`, `payload`,
`method`, `headers`) never influence the lifecycle and are left abstract. -/
structure QItem where
  status : QStatus
  retries : Nat
  createdAt : Int
deriving DecidableEq

/-- Maximum retry bound, `MAX_RETRIES = 3` in `QueueService`. -/
def maxRetriesQ : Nat := 3

/-- Base retry delay unit, `RETRY_DELAY = 1000` milliseconds. -/
def retryDelayQ : Nat := 1000

/-- Embedding of `QueueService.enqueue`: the generated id (randomness passed
in from the id generator) is stored with status `pending` and `retries = 0`;
the scheduler is only triggered asynchronously via `setImmediate`. -/
def enqueue (q : List (String × QItem)) (id : String) (now : Int) :
    String × List (String × QItem) :=
  (id, mset q id { status := QStatus.pending, retries := 0, createdAt := now })

/-- Embedding of `QueueService.getStatus`. -/
def getStatus (q : List (String × QItem)) (id : String) : Option QItem :=
  mget q id

/-- Embedding of the `catch` branch of `QueueService.processPostback`:
`item.retries += 1; if (item.retries < this.MAX_RETRIES)` set the status back
to `pending`, otherwise mark `failed`. -/
def applyFailure (it : QItem) : QItem :=
  let r := it.retries + 1
  if r < maxRetriesQ then
    { it with status := QStatus.pending, retries := r }
  else
    { it with status := QStatus.failed, retries := r }

/-- One full execution attempt of `processPostback` against a destination
that fails: the item is first marked `processing`, then the failure branch
runs. -/
def failedAttempt (it : QItem) : QItem :=
  applyFailure { it with status := QStatus.processing }

/-- Scheduler eligibility from `QueueService.processQueue`: an item is picked
only when `item.status === 'pending'` and it is not in the `processing` set. -/
def eligibleB (it : QItem) (inProcessing : Bool) : Bool :=
  (it.status == QStatus.pending) && !inProcessing

/-- Item state together with its membership in the `processing` set. -/
structure SchedState where
  item : QItem
  inProcessing : Bool
deriving DecidableEq

/-- Embedding of `processPostback` on a failing destination, with the
`processing`-set bookkeeping: `processing.add` and `status = 'processing'` on
entry; in `catch`, the retries increment and status update, plus (only in the
still-retryable case) a timer of `RETRY_DELAY * item.retries` milliseconds
whose callback clears the `processing` entry and re-triggers `processQueue`;
then the `finally` block deletes the `processing` entry immediately when the
attempt settles. Returns the new state and the scheduled timer, if any. -/
def processPostbackFail (s : SchedState) : SchedState × Option Nat :=
  let it2 := applyFailure { s.item with status := QStatus.processing }
  (⟨it2, false⟩,
    if it2.status = QStatus.pending then some (retryDelayQ * it2.retries) else none)

/-- Outcome of one worker fetch attempt: a 2xx response, a non-2xx response,
or a thrown error (transport failure or the 30-second timeout abort). -/
inductive WorkerOutcome : Type
  | ok
  | errorStatus
  | thrown
deriving DecidableEq

/-- The columns of a `postback_queue` row that the consumer logic reads and
writes. -/
structure WorkerRow where
  status : QStatus
  retries : Nat
deriving DecidableEq

/-- Embedding of one queue message delivery in the worker consumer
(`worker/src/index.ts`): a missing row, or one whose status is not
`pending`, is acked untouched by the guard; otherwise the row is marked
`processing` and the fetch runs — on a 2xx response the row is marked
`completed` and the message acked; on a non-2xx response, `retries` (read
from the originally selected row) is incremented and the row is marked
`failed` and acked when it reaches 3, else marked `pending` and the message
retried; a thrown error lands in the outer `catch`, which calls
`message.retry()` with no further database update, leaving the row in
`processing`. Returns the row after the delivery, and `true` when the
message was acked, `false` when it was retried. -/
def workerConsume (row : Option WorkerRow) (outcome : WorkerOutcome) :
    Option WorkerRow × Bool :=
  match row with
  | none => (none, true)
  | some r =>
      if r.status ≠ QStatus.pending then (some r, true)
      else
        match outcome with
        | WorkerOutcome.ok =>
            (some { status := QStatus.completed, retries := r.retries }, true)
        | WorkerOutcome.errorStatus =>
            let retries := r.retries + 1
            if retries ≥ 3 then
              (some { status := QStatus.failed, retries := retries }, true)
            else
              (some { status := QStatus.pending, retries := retries }, false)
        | WorkerOutcome.thrown =>
            (some { status := QStatus.processing, retries := r.retries }, false)

/-- Statuses for which cleanup may remove an item. -/
def terminalB : QStatus → Bool
  | QStatus.completed => true
  | QStatus.failed => true
  | _ => false

/-- Embedding of `QueueService.cleanup`: collect the ids of terminal items
strictly older than `olderThanMs`, then delete each collected id. -/
def cleanup (q : List (String × QItem)) (now olderThanMs : Int) :
    List (String × QItem) :=
  let toDelete :=
    (q.filter (fun p =>
      terminalB p.2.status && decide (now - p.2.createdAt > olderThanMs))).map
      Prod.fst
  toDelete.foldl mdel q

/-- Status evolution reachable from an item without any HTTP response or
timeout event having arrived: the scheduler can only move a `pending` item to
`processing` (the `completed`/`failed`/back-to-`pending` transitions all
happen after `executePostback` settles). -/
inductive ReachNoResp : QItem → QItem → Prop
  | refl (a : QItem) : ReachNoResp a a
  | step (a b : QItem) : ReachNoResp a b → b.status = QStatus.pending →
      ReachNoResp a { b with status := QStatus.processing }

/-! Connection Registry model, from `SocketService` (`socket.service.ts`)
and the `SocketManager` durable object. The primary table is keyed by the
connection id (`socket.id` / the durable object's `connectionId`, which also
identifies the underlying live handle). -/

/-- Per-connection state, from `SocketConnection` / `ConnectionState`. -/
structure Conn where
  channel : String
  userId : String
  connectedAt : Int
deriving DecidableEq

/-- The three Registry structures: the primary connection table plus the
channel and user indexes (`connections`, `channelUsers`/`channelToSockets`,
`userSockets`/`userToSockets`). -/
structure Registry where
  connections : List (String × Conn)
  channelToSockets : List (String × List String)
  userToSockets : List (String × List String)
deriving DecidableEq

/-- The Registry at process start. -/
def Registry.empty : Registry := ⟨[], [], []⟩

/-- Embedding of registration (`handleConnection` / `handleWebSocket`) after
the channel and userId have been resolved: insert into the primary table,
add the id to the channel index set (creating the key when absent), and add
it to the user index set likewise. -/
def register (st : Registry) (id ch uid : String) (t : Int) : Registry :=
  { connections := mset st.connections id { channel := ch, userId := uid, connectedAt := t },
    channelToSockets :=
      mset st.channelToSockets ch (sadd ((mget st.channelToSockets ch).getD []) id),
    userToSockets :=
      mset st.userToSockets uid (sadd ((mget st.userToSockets uid).getD []) id) }

/-- The index-pruning step of removal: look up the key's set, delete the id
from it, and delete the key itself when the set becomes empty (the code's
`set.delete(ws); if (set.size === 0) map.delete(key)`); a missing key leaves
the index unchanged. -/
def pruneIndex (idx : List (String × List String)) (key id : String) :
    List (String × List String) :=
  match mget idx key with
  | none => idx
  | some s =>
      let s2 := sdel s id
      if s2.isEmpty then mdel idx key else mset idx key s2

/-- Embedding of removal (`handleDisconnection` / `removeConnection`): if the
id is unknown, return unchanged; otherwise delete it from the primary table
and prune it from its channel index entry and its user index entry. -/
def removeConnection (st : Registry) (id : String) : Registry :=
  match mget st.connections id with
  | none => st
  | some c =>
      { connections := mdel st.connections id,
        channelToSockets := pruneIndex st.channelToSockets c.channel id,
        userToSockets := pruneIndex st.userToSockets c.userId id }

/-- Channel recorded in the primary table for a connection id. -/
def connChannel (st : Registry) (id : String) : Option String :=
  (mget st.connections id).map Conn.channel

/-- User recorded in the primary table for a connection id. -/
def connUser (st : Registry) (id : String) : Option String :=
  (mget st.connections id).map Conn.userId

/-- Whether an id is a member of the index set stored under a key. -/
def memIndex (m : List (String × List String)) (k id : String) : Bool :=
  match mget m k with
  | some s => id ∈ s
  | none => false

/-- The Registry invariant of the spec: unique keys everywhere; every index
key maps to a non-empty duplicate-free set whose members are present in the
primary table with exactly that channel (resp. user) — so an id appears in
exactly one channel entry and one user entry; and every connection in the
primary table appears in its channel's and its user's index set. -/
def Inv (st : Registry) : Prop :=
  (keys st.connections).Nodup ∧
  (keys st.channelToSockets).Nodup ∧
  (keys st.userToSockets).Nodup ∧
  (∀ p ∈ st.channelToSockets,
    p.2 ≠ [] ∧ p.2.Nodup ∧ ∀ id ∈ p.2, connChannel st id = some p.1) ∧
  (∀ p ∈ st.userToSockets,
    p.2 ≠ [] ∧ p.2.Nodup ∧ ∀ id ∈ p.2, connUser st id = some p.1) ∧
  (∀ p ∈ st.connections,
    memIndex st.channelToSockets p.2.channel p.1 = true ∧
    memIndex st.userToSockets p.2.userId p.1 = true)

instance instDecidableInv (st : Registry) : Decidable (Inv st) := by
  unfold Inv
  exact inferInstance

/-! Dispatch Engine model, from `SocketManager.handleDispatch` (durable
object), the worker dispatch route, and — for the counterexample — the
Socket.IO `SocketService.dispatchToChannel`. Push outcomes (`ws.send`
succeeding or throwing) are abstracted as a predicate on connection ids. -/

/-- JavaScript truthiness of an optional string request field
(`body.channel` / `body.userId`): present and non-empty. -/
def jsTruthy (o : Option String) : Bool :=
  match o with
  | some s => !(s == "")
  | none => false

/-- The live `userSet.has(ws)` check performed inside the dispatch loop when
a user filter applies; `none` means the branch has no user filter. -/
def inUserSet (st : Registry) (uidF : Option String) (ws : String) : Bool :=
  match uidF with
  | none => true
  | some uid => memIndex st.userToSockets uid ws

/-- The dispatch delivery loop of `handleDispatch`: iterate over a snapshot
of the resolved index set (the loop only ever deletes the element it is
visiting, so iterating a snapshot matches iterating the live `Set`); for each
id still passing the live user-filter and `connections.has` checks, try the
push: on success count it, on failure remove the connection and continue. -/
def sendLoop (f : String → Bool) (uidF : Option String) :
    Registry → List String → Registry × Nat
  | st, [] => (st, 0)
  | st, ws :: rest =>
      if inUserSet st uidF ws && (mget st.connections ws).isSome then
        if f ws then
          let r := sendLoop f uidF st rest
          (r.1, r.2 + 1)
        else
          sendLoop f uidF (removeConnection st ws) rest
      else
        sendLoop f uidF st rest

/-- Embedding of `SocketManager.handleDispatch`: branch on which targeting
fields are (truthily) present, look up the index sets, and run the delivery
loop; a missing index key yields zero deliveries. -/
def handleDispatch (st : Registry) (f : String → Bool)
    (channel userId : Option String) : Registry × Nat :=
  if jsTruthy channel && jsTruthy userId then
    match mget st.channelToSockets (channel.getD ""),
        mget st.userToSockets (userId.getD "") with
    | some chSet, some _ => sendLoop f userId st chSet
    | _, _ => (st, 0)
  else if jsTruthy channel then
    match mget st.channelToSockets (channel.getD "") with
    | some chSet => sendLoop f none st chSet
    | none => (st, 0)
  else if jsTruthy userId then
    match mget st.userToSockets (userId.getD "") with
    | some uSet => sendLoop f none st uSet
    | none => (st, 0)
  else
    (st, 0)

/-- Embedding of the dispatch route handler (`routes/socket.ts` and
`socket.routes.ts`): reject with `BAD_REQUEST` when neither `channel` nor
`userId` is truthy, before the Registry is consulted; otherwise forward to
the dispatch engine. -/
def dispatchRoute (st : Registry) (f : String → Bool)
    (channel userId : Option String) : Except String (Registry × Nat) :=
  if !jsTruthy channel && !jsTruthy userId then
    Except.error "BAD_REQUEST"
  else
    Except.ok (handleDispatch st f channel userId)

/-- Modelled from the spec's targeting rule, for comparison with
`handleDispatch`: both fields → the intersection of the channel index set and
the user index set; only channel → the channel index set; only user → the
user index set; neither → nothing. -/
def specTargets (st : Registry) (channel userId : Option String) :
    List String :=
  if jsTruthy channel && jsTruthy userId then
    match mget st.channelToSockets (channel.getD ""),
        mget st.userToSockets (userId.getD "") with
    | some chSet, some uSet => chSet.filter (fun ws => decide (ws ∈ uSet))
    | _, _ => []
  else if jsTruthy channel then
    (mget st.channelToSockets (channel.getD "")).getD []
  else if jsTruthy userId then
    (mget st.userToSockets (userId.getD "")).getD []
  else
    []

/-- Modelled from the spec's words: the delivered count is the number of
successful pushes over a target list. -/
def specDeliveredCount (targets : List String) (f : String → Bool) : Nat :=
  (targets.filter f).length

/-- Embedding of the Socket.IO `SocketService.dispatchToChannel`: a room
broadcast with no per-connection failure handling — it returns the channel
index set size (0 when the key is absent or the set empty) and never mutates
the Registry, whatever happens to the individual pushes. -/
def dispatchToChannel (st : Registry) (ch : String) : Nat :=
  match mget st.channelToSockets ch with
  | none => 0
  | some s => if s.length = 0 then 0 else s.length

/-- Remove a list of connections in order (the cumulative effect of the
failure path across one dispatch loop). -/
def removeList (st : Registry) (l : List String) : Registry :=
  l.foldl removeConnection st

/-- The distinct-user accumulation of `getChannelStats` /
`handleChannelStats`: walk the channel's index set, look each id up in the
primary table, and add the userId of every connection found to a set. -/
def collectUsers (st : Registry) (sockets : List String) : List String :=
  sockets.foldl (fun acc id =>
    match mget st.connections id with
    | some c => sadd acc c.userId
    | none => acc) []

/-- Embedding of `getChannelStats` / `handleChannelStats`: `socketCount` is
the channel index set size (0 when absent), `userCount` the number of
distinct userIds among those of its members found in the primary table.
Returned as (userCount, socketCount). -/
def getChannelStats (st : Registry) (ch : String) : Nat × Nat :=
  let sockets := (mget st.channelToSockets ch).getD []
  ((collectUsers st sockets).length, sockets.length)

/-! Identifier generation, from `generateChannel` / `generateUserId` and the
channel/userId resolution in `handleWebSocket`: the random source is passed
in as the string produced by `Math.random().toString(36)`. -/

/-- Embedding of JavaScript `String.prototype.substring(a, b)`. -/
def jsSubstring (s : String) (a b : Nat) : String :=
  String.mk ((s.toList.drop a).take (b - a))

/-- The random suffix `Math.random().toString(36).substring(2, 11)`. -/
def randSuffix (randStr : String) : String :=
  jsSubstring randStr 2 11

/-- Embedding of `generateChannel`. -/
def generateChannel (randStr : String) : String :=
  "channel-" ++ randSuffix randStr

/-- Embedding of `generateUserId`. -/
def generateUserId (randStr : String) : String :=
  "user-" ++ randSuffix randStr

/-- Embedding of JavaScript `String.prototype.trim`: strip leading and
trailing whitespace. -/
def jsTrim (s : String) : String :=
  String.mk (((s.toList.dropWhile Char.isWhitespace).reverse.dropWhile
    Char.isWhitespace).reverse)

/-- Embedding of the channel resolution in `handleWebSocket`:
`(rawChannel ?? "").trim() || this.generateChannel()`. -/
def resolveChannel (raw : Option String) (randStr : String) : String :=
  let t := jsTrim (raw.getD "")
  if t = "" then generateChannel randStr else t

/-- Embedding of the userId resolution in `handleWebSocket`. -/
def resolveUserId (raw : Option String) (randStr : String) : String :=
  let t := jsTrim (raw.getD "")
  if t = "" then generateUserId randStr else t

section MapLemmas

variable {α β : Type} [DecidableEq α]

omit [DecidableEq α] in
theorem keys_cons (k : α) (v : β) (m : List (α × β)) :
    keys ((k, v) :: m) = k :: keys m := rfl

omit [DecidableEq α] in
theorem mem_keys_iff (m : List (α × β)) (k : α) :
    k ∈ keys m ↔ ∃ v, (k, v) ∈ m := by
  induction m with
  | nil => simp [keys]
  | cons p rest ih =>
      obtain ⟨k0, v0⟩ := p
      rw [keys_cons]
      constructor
      · intro h
        rcases List.mem_cons.mp h with h1 | h1
        · exact ⟨v0, by simp [h1]⟩
        · obtain ⟨v, hv⟩ := ih.mp h1
          exact ⟨v, List.mem_cons_of_mem _ hv⟩
      · intro ⟨v, hv⟩
        rcases List.mem_cons.mp hv with h1 | h1
        · have hk : k = k0 := (Prod.ext_iff.mp h1).1
          exact hk ▸ List.mem_cons_self _ _
        · exact List.mem_cons_of_mem _ (ih.mpr ⟨v, h1⟩)

theorem mget_mset_self (m : List (α × β)) (k : α) (v : β) :
    mget (mset m k v) k = some v := by
  induction m with
  | nil => simp [mset, mget]
  | cons p rest ih =>
      obtain ⟨k0, v0⟩ := p
      by_cases h : k0 = k
      · simp [mset, h, mget]
      · simp [mset, h, mget, ih]

theorem mget_mset_ne (m : List (α × β)) (k k' : α) (v : β) (h : k' ≠ k) :
    mget (mset m k v) k' = mget m k' := by
  have hne : ¬ k = k' := Ne.symm h
  induction m with
  | nil => simp [mset, mget, hne]
  | cons p rest ih =>
      obtain ⟨k0, v0⟩ := p
      by_cases h0 : k0 = k
      · subst h0
        simp [mset, mget, hne]
      · simp [mset, h0, mget, ih]

theorem mget_eq_none_iff (m : List (α × β)) (k : α) :
    mget m k = none ↔ k ∉ keys m := by
  induction m with
  | nil => simp [mget, keys]
  | cons p rest ih =>
      obtain ⟨k0, v0⟩ := p
      rw [keys_cons]
      by_cases h : k0 = k
      · subst h
        simp [mget]
      · have hne : ¬ k = k0 := Ne.symm h
        simp [mget, h, ih, hne]

theorem mget_isSome_iff (m : List (α × β)) (k : α) :
    (mget m k).isSome = true ↔ k ∈ keys m := by
  rcases h : mget m k with _ | v
  · simp [Option.isSome, (mget_eq_none_iff m k).mp h]
  · have hne : ¬ mget m k = none := by simp [h]
    rw [mget_eq_none_iff] at hne
    simp [Option.isSome, not_not.mp hne]

theorem keys_mset_of_mem (m : List (α × β)) (k : α) (v : β) (h : k ∈ keys m) :
    keys (mset m k v) = keys m := by
  induction m with
  | nil => simp [keys] at h
  | cons p rest ih =>
      obtain ⟨k0, v0⟩ := p
      by_cases h0 : k0 = k
      · rw [mset, if_pos h0, keys_cons, keys_cons, h0]
      · have hk : k ∈ keys rest := by
          rw [keys_cons] at h
          rcases List.mem_cons.mp h with h1 | h1
          · exact absurd h1.symm h0
          · exact h1
        rw [mset, if_neg h0, keys_cons, keys_cons, ih hk]

theorem keys_mset_of_not_mem (m : List (α × β)) (k : α) (v : β) (h : k ∉ keys m) :
    keys (mset m k v) = keys m ++ [k] := by
  induction m with
  | nil => simp [mset, keys]
  | cons p rest ih =>
      obtain ⟨k0, v0⟩ := p
      rw [keys_cons] at h
      have h0 : ¬ k0 = k := fun hh => h (by simp [hh])
      have hr : k ∉ keys rest := fun hh => h (by simp [hh])
      rw [mset, if_neg h0, keys_cons, keys_cons, ih hr]
      rfl

theorem nodup_keys_mset (m : List (α × β)) (k : α) (v : β)
    (h : (keys m).Nodup) : (keys (mset m k v)).Nodup := by
  by_cases hk : k ∈ keys m
  · rw [keys_mset_of_mem m k v hk]; exact h
  · rw [keys_mset_of_not_mem m k v hk]
    rw [List.nodup_append]
    exact ⟨h, List.nodup_singleton k, fun x hx hxk =>
      hk ((List.mem_singleton.mp hxk) ▸ hx)⟩

theorem mem_mset_iff (m : List (α × β)) (k : α) (v : β) (p : α × β)
    (h : (keys m).Nodup) :
    p ∈ mset m k v ↔ p = (k, v) ∨ (p ∈ m ∧ p.1 ≠ k) := by
  induction m with
  | nil => simp [mset]
  | cons q rest ih =>
      obtain ⟨k0, v0⟩ := q
      rw [keys_cons, List.nodup_cons] at h
      obtain ⟨hk0, hnd⟩ := h
      by_cases h0 : k0 = k
      · subst h0
        rw [mset, if_pos rfl]
        constructor
        · intro hp
          rcases List.mem_cons.mp hp with h1 | h1
          · exact Or.inl h1
          · refine Or.inr ⟨List.mem_cons_of_mem _ h1, ?_⟩
            intro hpk
            exact hk0 (hpk ▸ ((mem_keys_iff rest p.1).mpr ⟨p.2, by simpa using h1⟩))
        · intro hp
          rcases hp with h1 | ⟨h1, h2⟩
          · exact h1 ▸ List.mem_cons_self _ _
          · rcases List.mem_cons.mp h1 with h3 | h3
            · exact absurd (congrArg Prod.fst h3) h2
            · exact List.mem_cons_of_mem _ h3
      · rw [mset, if_neg h0]
        constructor
        · intro hp
          rcases List.mem_cons.mp hp with h1 | h1
          · exact Or.inr ⟨h1 ▸ List.mem_cons_self _ _,
              by rw [h1]; exact fun hh => h0 hh⟩
          · rcases (ih hnd).mp h1 with h2 | ⟨h2, h3⟩
            · exact Or.inl h2
            · exact Or.inr ⟨List.mem_cons_of_mem _ h2, h3⟩
        · intro hp
          rcases hp with h1 | ⟨h1, h2⟩
          · exact List.mem_cons_of_mem _ ((ih hnd).mpr (Or.inl h1))
          · rcases List.mem_cons.mp h1 with h3 | h3
            · exact h3 ▸ List.mem_cons_self _ _
            · exact List.mem_cons_of_mem _ ((ih hnd).mpr (Or.inr ⟨h3, h2⟩))

theorem mem_mdel_iff (m : List (α × β)) (k : α) (p : α × β)
    (h : (keys m).Nodup) :
    p ∈ mdel m k ↔ p ∈ m ∧ p.1 ≠ k := by
  induction m with
  | nil => simp [mdel]
  | cons q rest ih =>
      obtain ⟨k0, v0⟩ := q
      rw [keys_cons, List.nodup_cons] at h
      obtain ⟨hk0, hnd⟩ := h
      by_cases h0 : k0 = k
      · subst h0
        rw [mdel, if_pos rfl]
        constructor
        · intro hp
          refine ⟨List.mem_cons_of_mem _ hp, ?_⟩
          intro hpk
          exact hk0 (hpk ▸ ((mem_keys_iff rest p.1).mpr ⟨p.2, by simpa using hp⟩))
        · intro ⟨h1, h2⟩
          rcases List.mem_cons.mp h1 with h3 | h3
          · exact absurd (congrArg Prod.fst h3) h2
          · exact h3
      · rw [mdel, if_neg h0]
        constructor
        · intro hp
          rcases List.mem_cons.mp hp with h1 | h1
          · exact ⟨h1 ▸ List.mem_cons_self _ _, by rw [h1]; exact fun hh => h0 hh⟩
          · have := (ih hnd).mp h1
            exact ⟨List.mem_cons_of_mem _ this.1, this.2⟩
        · intro ⟨h1, h2⟩
          rcases List.mem_cons.mp h1 with h3 | h3
          · exact h3 ▸ List.mem_cons_self _ _
          · exact List.mem_cons_of_mem _ ((ih hnd).mpr ⟨h3, h2⟩)

theorem mget_mdel_ne (m : List (α × β)) (k k' : α) (h : k' ≠ k) :
    mget (mdel m k) k' = mget m k' := by
  induction m with
  | nil => simp [mdel]
  | cons p rest ih =>
      obtain ⟨k0, v0⟩ := p
      by_cases h0 : k0 = k
      · subst h0
        have hne : ¬ k0 = k' := Ne.symm h
        simp [mdel, mget, hne]
      · simp [mdel, h0, mget, ih]

theorem mget_mdel_self (m : List (α × β)) (k : α) (h : (keys m).Nodup) :
    mget (mdel m k) k = none := by
  induction m with
  | nil => simp [mdel, mget]
  | cons p rest ih =>
      obtain ⟨k0, v0⟩ := p
      rw [keys_cons, List.nodup_cons] at h
      obtain ⟨hk0, hnd⟩ := h
      by_cases h0 : k0 = k
      · subst h0
        rw [mdel, if_pos rfl]
        exact (mget_eq_none_iff rest k0).mpr hk0
      · simp [mdel, h0, mget, ih hnd]

theorem keys_mdel_sublist (m : List (α × β)) (k : α) :
    List.Sublist (keys (mdel m k)) (keys m) := by
  induction m with
  | nil => simp [mdel, keys]
  | cons p rest ih =>
      obtain ⟨k0, v0⟩ := p
      by_cases h0 : k0 = k
      · rw [mdel, if_pos h0, keys_cons]
        exact List.sublist_cons_self k0 (keys rest)
      · rw [mdel, if_neg h0, keys_cons, keys_cons]
        exact ih.cons₂ k0

theorem nodup_keys_mdel (m : List (α × β)) (k : α) (h : (keys m).Nodup) :
    (keys (mdel m k)).Nodup :=
  (keys_mdel_sublist m k).nodup h

theorem mget_eq_some_of_mem (m : List (α × β)) (k : α) (v : β)
    (h : (keys m).Nodup) (hm : (k, v) ∈ m) : mget m k = some v := by
  induction m with
  | nil => simp at hm
  | cons p rest ih =>
      obtain ⟨k0, v0⟩ := p
      rw [keys_cons, List.nodup_cons] at h
      obtain ⟨hk0, hnd⟩ := h
      rcases List.mem_cons.mp hm with h1 | h1
      · have hk : k = k0 := (Prod.ext_iff.mp h1).1
        have hv : v = v0 := (Prod.ext_iff.mp h1).2
        rw [mget, if_pos hk.symm, hv]
      · have hne : ¬ k0 = k := by
          intro hh
          exact hk0 (hh ▸ (mem_keys_iff rest k).mpr ⟨v, h1⟩)
        rw [mget, if_neg hne]
        exact ih hnd h1

theorem mem_of_mget_eq_some (m : List (α × β)) (k : α) (v : β)
    (h : mget m k = some v) : (k, v) ∈ m := by
  induction m with
  | nil => simp [mget] at h
  | cons p rest ih =>
      obtain ⟨k0, v0⟩ := p
      by_cases h0 : k0 = k
      · subst h0
        rw [mget, if_pos rfl, Option.some.injEq] at h
        simp [h]
      · rw [mget, if_neg h0] at h
        exact List.mem_cons_of_mem _ (ih h)

theorem mem_sadd (s : List α) (a x : α) : x ∈ sadd s a ↔ x ∈ s ∨ x = a := by
  by_cases h : a ∈ s
  · rw [sadd, if_pos h]
    constructor
    · exact fun hx => Or.inl hx
    · intro hx
      rcases hx with hx | hx
      · exact hx
      · exact hx ▸ h
  · rw [sadd, if_neg h]
    simp

theorem nodup_sadd (s : List α) (a : α) (h : s.Nodup) : (sadd s a).Nodup := by
  by_cases ha : a ∈ s
  · rw [sadd, if_pos ha]; exact h
  · rw [sadd, if_neg ha, List.nodup_append]
    exact ⟨h, List.nodup_singleton a, fun x hx hxa =>
      ha ((List.mem_singleton.mp hxa) ▸ hx)⟩

theorem sadd_ne_nil (s : List α) (a : α) : sadd s a ≠ [] := by
  by_cases h : a ∈ s
  · rw [sadd, if_pos h]
    exact List.ne_nil_of_mem h
  · rw [sadd, if_neg h]
    simp

theorem mem_sdel (s : List α) (a x : α) : x ∈ sdel s a ↔ x ∈ s ∧ x ≠ a := by
  simp [sdel, List.mem_filter]

theorem nodup_sdel (s : List α) (a : α) (h : s.Nodup) : (sdel s a).Nodup :=
  List.Nodup.filter _ h

theorem sdel_eq_nil_iff (s : List α) (a : α) :
    sdel s a = [] ↔ ∀ x ∈ s, x = a := by
  constructor
  · intro h x hx
    by_contra hne
    exact (List.ne_nil_of_mem ((mem_sdel s a x).mpr ⟨hx, hne⟩)) h
  · intro h
    rcases hn : sdel s a with _ | ⟨y, rest⟩
    · rfl
    · have hy : y ∈ sdel s a := by rw [hn]; exact List.mem_cons_self _ _
      have hm := (mem_sdel s a y).mp hy
      exact absurd (h y hm.1) hm.2

end MapLemmas

section CleanupLemmas

theorem mget_foldl_mdel (l : List String) (q : List (String × QItem))
    (k : String) (h : (keys q).Nodup) :
    mget (l.foldl mdel q) k = if k ∈ l then none else mget q k := by
  induction l generalizing q with
  | nil => simp
  | cons a rest ih =>
      rw [List.foldl_cons]
      rw [ih (mdel q a) (nodup_keys_mdel q a h)]
      by_cases hk : k ∈ rest
      · simp [hk]
      · by_cases hka : k = a
        · subst hka
          simp [hk, mget_mdel_self q k h]
        · simp [hk, hka, mget_mdel_ne q a k hka]

end CleanupLemmas

section InvLemmas

theorem inv_empty : Inv Registry.empty := by decide

theorem index_side_register
    (conns : List (String × Conn)) (idx : List (String × List String))
    (proj : Conn → String) (id key : String) (c : Conn)
    (hproj : proj c = key)
    (hfresh : mget conns id = none)
    (hnodup : (keys idx).Nodup)
    (hidx : ∀ p ∈ idx, p.2 ≠ [] ∧ p.2.Nodup ∧
      ∀ i ∈ p.2, (mget conns i).map proj = some p.1) :
    ∀ p ∈ mset idx key (sadd ((mget idx key).getD []) id),
      p.2 ≠ [] ∧ p.2.Nodup ∧
      ∀ i ∈ p.2, (mget (mset conns id c) i).map proj = some p.1 := by
  have hlift : ∀ i k', (mget conns i).map proj = some k' →
      (mget (mset conns id c) i).map proj = some k' := by
    intro i k' hi
    have hine : i ≠ id := by
      intro hh
      rw [hh, hfresh] at hi
      cases hi
    rw [mget_mset_ne conns id i c hine]
    exact hi
  intro p hp
  rcases (mem_mset_iff idx key _ p hnodup).mp hp with h1 | ⟨h1, h2⟩
  · subst h1
    refine ⟨sadd_ne_nil _ _, ?_, ?_⟩
    · rcases hs : mget idx key with _ | s
      · simp only [hs, Option.getD_none]
        exact nodup_sadd [] id List.nodup_nil
      · simp only [hs, Option.getD_some]
        exact nodup_sadd s id (hidx (key, s) (mem_of_mget_eq_some idx key s hs)).2.1
    · intro i hi
      rcases hs : mget idx key with _ | s
      · rw [hs] at hi
        simp only [Option.getD_none] at hi
        have hiid : i = id := by
          rcases (mem_sadd [] id i).mp hi with h3 | h3
          · cases h3
          · exact h3
        subst hiid
        rw [mget_mset_self]
        simp [hproj]
      · rw [hs] at hi
        simp only [Option.getD_some] at hi
        rcases (mem_sadd s id i).mp hi with h3 | h3
        · exact hlift i key
            ((hidx (key, s) (mem_of_mget_eq_some idx key s hs)).2.2 i h3)
        · subst h3
          rw [mget_mset_self]
          simp [hproj]
  · have hold := hidx p h1
    exact ⟨hold.1, hold.2.1, fun i hi => hlift i p.1 (hold.2.2 i hi)⟩

theorem memIndex_mset_sadd
    (idx : List (String × List String)) (key k i id : String)
    (h : memIndex idx k i = true) :
    memIndex (mset idx key (sadd ((mget idx key).getD []) id)) k i = true := by
  by_cases hk : k = key
  · subst hk
    unfold memIndex at h ⊢
    rcases hs : mget idx k with _ | s
    · rw [hs] at h
      cases h
    · rw [hs] at h
      rw [mget_mset_self]
      simp only [hs, Option.getD_some]
      rw [decide_eq_true_iff] at h ⊢
      exact (mem_sadd s id i).mpr (Or.inl h)
  · unfold memIndex at h ⊢
    rw [mget_mset_ne idx key k _ hk]
    exact h

/-- Registration of a fresh id preserves the Registry invariant. -/
theorem register_preserves_inv (st : Registry) (id ch uid : String) (t : Int)
    (hInv : Inv st) (hfresh : mget st.connections id = none) :
    Inv (register st id ch uid t) := by
  obtain ⟨hnc, hnch, hnu, hch, hus, hcn⟩ := hInv
  have hidnk : id ∉ keys st.connections := (mget_eq_none_iff _ _).mp hfresh
  refine ⟨?_, ?_, ?_, ?_, ?_, ?_⟩
  · show (keys (mset st.connections id _)).Nodup
    rw [keys_mset_of_not_mem _ _ _ hidnk, List.nodup_append]
    exact ⟨hnc, List.nodup_singleton _,
      fun x hx hxa => hidnk ((List.mem_singleton.mp hxa) ▸ hx)⟩
  · exact nodup_keys_mset _ _ _ hnch
  · exact nodup_keys_mset _ _ _ hnu
  · exact index_side_register st.connections st.channelToSockets Conn.channel
      id ch { channel := ch, userId := uid, connectedAt := t } rfl hfresh hnch hch
  · exact index_side_register st.connections st.userToSockets Conn.userId
      id uid { channel := ch, userId := uid, connectedAt := t } rfl hfresh hnu hus
  · intro p hp
    rcases (mem_mset_iff st.connections id
        { channel := ch, userId := uid, connectedAt := t } p hnc).mp hp with
      h1 | ⟨h1, h2⟩
    · subst h1
      constructor
      · show memIndex (mset st.channelToSockets ch _) ch id = true
        unfold memIndex
        rw [mget_mset_self]
        rw [decide_eq_true_iff]
        exact (mem_sadd _ id id).mpr (Or.inr rfl)
      · show memIndex (mset st.userToSockets uid _) uid id = true
        unfold memIndex
        rw [mget_mset_self]
        rw [decide_eq_true_iff]
        exact (mem_sadd _ id id).mpr (Or.inr rfl)
    · have hold := hcn p h1
      exact ⟨memIndex_mset_sadd _ ch _ _ id hold.1,
        memIndex_mset_sadd _ uid _ _ id hold.2⟩

theorem nodup_keys_pruneIndex (idx : List (String × List String))
    (key id : String) (h : (keys idx).Nodup) :
    (keys (pruneIndex idx key id)).Nodup := by
  unfold pruneIndex
  rcases hs : mget idx key with _ | s
  · exact h
  · by_cases hemp : (sdel s id).isEmpty
    · simp only [hemp, if_true]
      exact nodup_keys_mdel _ _ h
    · simp only [hemp, if_false]
      exact nodup_keys_mset _ _ _ h

theorem index_side_remove
    (conns : List (String × Conn)) (idx : List (String × List String))
    (proj : Conn → String) (id : String) (c : Conn)
    (hc : mget conns id = some c)
    (hnodup : (keys idx).Nodup)
    (hidx : ∀ p ∈ idx, p.2 ≠ [] ∧ p.2.Nodup ∧
      ∀ i ∈ p.2, (mget conns i).map proj = some p.1) :
    ∀ p ∈ pruneIndex idx (proj c) id,
      p.2 ≠ [] ∧ p.2.Nodup ∧
      ∀ i ∈ p.2, (mget (mdel conns id) i).map proj = some p.1 := by
  have hlift : ∀ i, i ≠ id → ∀ k', (mget conns i).map proj = some k' →
      (mget (mdel conns id) i).map proj = some k' := by
    intro i hne k' hi
    rw [mget_mdel_ne conns id i hne]
    exact hi
  have hold_entry : ∀ p ∈ idx, p.1 ≠ proj c →
      p.2 ≠ [] ∧ p.2.Nodup ∧
      ∀ i ∈ p.2, (mget (mdel conns id) i).map proj = some p.1 := by
    intro p hp hpne
    have hold := hidx p hp
    refine ⟨hold.1, hold.2.1, ?_⟩
    intro i hi
    have hip := hold.2.2 i hi
    have hine : i ≠ id := by
      intro hh
      rw [hh, hc] at hip
      have hip2 : some (proj c) = some p.1 := hip
      exact hpne (Option.some.inj hip2).symm
    exact hlift i hine _ hip
  intro p hp
  unfold pruneIndex at hp
  rcases hs : mget idx (proj c) with _ | s
  · rw [hs] at hp
    have hp2 : p ∈ idx := hp
    have hpne : p.1 ≠ proj c := by
      intro hh
      have : mget idx p.1 = some p.2 :=
        mget_eq_some_of_mem idx p.1 p.2 hnodup (Prod.mk.eta (p := p) ▸ hp2)
      rw [hh, hs] at this
      cases this
    exact hold_entry p hp2 hpne
  · rw [hs] at hp
    have hp2 : p ∈ (if (sdel s id).isEmpty then mdel idx (proj c)
        else mset idx (proj c) (sdel s id)) := hp
    have hsmem := hidx (proj c, s) (mem_of_mget_eq_some idx (proj c) s hs)
    by_cases hemp : (sdel s id).isEmpty
    · rw [if_pos hemp] at hp2
      have hmd := (mem_mdel_iff idx (proj c) p hnodup).mp hp2
      exact hold_entry p hmd.1 hmd.2
    · rw [if_neg hemp] at hp2
      rcases (mem_mset_iff idx (proj c) _ p hnodup).mp hp2 with h1 | ⟨h1, h2⟩
      · subst h1
        refine ⟨fun hnil => hemp (by rw [show sdel s id = [] from hnil]; rfl),
          nodup_sdel s id hsmem.2.1, ?_⟩
        intro i hi
        have hmem := (mem_sdel s id i).mp hi
        exact hlift i hmem.2 _ (hsmem.2.2 i hmem.1)
      · exact hold_entry p h1 h2

theorem memIndex_pruneIndex_ne_id
    (idx : List (String × List String)) (pk k i id : String)
    (hine : i ≠ id)
    (h : memIndex idx k i = true) :
    memIndex (pruneIndex idx pk id) k i = true := by
  unfold pruneIndex
  rcases hs : mget idx pk with _ | s
  · exact h
  · show memIndex (if (sdel s id).isEmpty then mdel idx pk
      else mset idx pk (sdel s id)) k i = true
    by_cases hk : k = pk
    · subst hk
      unfold memIndex at h
      rw [hs, decide_eq_true_iff] at h
      by_cases hemp : (sdel s id).isEmpty
      · exfalso
        have hnil : sdel s id = [] := by
          cases hd : sdel s id
          · rfl
          · rw [hd] at hemp; cases hemp
        exact hine ((sdel_eq_nil_iff s id).mp hnil i h)
      · rw [if_neg hemp]
        unfold memIndex
        rw [mget_mset_self, decide_eq_true_iff]
        exact (mem_sdel s id i).mpr ⟨h, hine⟩
    · by_cases hemp : (sdel s id).isEmpty
      · rw [if_pos hemp]
        unfold memIndex at h ⊢
        rw [mget_mdel_ne idx pk k hk]
        exact h
      · rw [if_neg hemp]
        unfold memIndex at h ⊢
        rw [mget_mset_ne idx pk k _ hk]
        exact h

/-- Removal preserves the Registry invariant (for any id, present or not). -/
theorem remove_preserves_inv (st : Registry) (id : String) (hInv : Inv st) :
    Inv (removeConnection st id) := by
  obtain ⟨hnc, hnch, hnu, hch, hus, hcn⟩ := hInv
  rcases hc : mget st.connections id with _ | c
  · unfold removeConnection
    rw [hc]
    exact ⟨hnc, hnch, hnu, hch, hus, hcn⟩
  · unfold removeConnection
    rw [hc]
    have hchS : ∀ p ∈ st.channelToSockets, p.2 ≠ [] ∧ p.2.Nodup ∧
        ∀ i ∈ p.2, (mget st.connections i).map Conn.channel = some p.1 := hch
    have husS : ∀ p ∈ st.userToSockets, p.2 ≠ [] ∧ p.2.Nodup ∧
        ∀ i ∈ p.2, (mget st.connections i).map Conn.userId = some p.1 := hus
    refine ⟨nodup_keys_mdel _ _ hnc,
      nodup_keys_pruneIndex _ _ _ hnch,
      nodup_keys_pruneIndex _ _ _ hnu,
      index_side_remove st.connections st.channelToSockets Conn.channel
        id c hc hnch hchS,
      index_side_remove st.connections st.userToSockets Conn.userId
        id c hc hnu husS, ?_⟩
    intro p hp
    have hmd := (mem_mdel_iff st.connections id p hnc).mp hp
    have hold := hcn p hmd.1
    exact ⟨memIndex_pruneIndex_ne_id _ c.channel _ _ id hmd.2 hold.1,
      memIndex_pruneIndex_ne_id _ c.userId _ _ id hmd.2 hold.2⟩

/-- Under the invariant, an id absent from the primary table is in no index
entry at all. -/
theorem memIndex_false_of_absent (st : Registry) (id : String) (hInv : Inv st)
    (habs : mget st.connections id = none) :
    (∀ k, memIndex st.channelToSockets k id = false) ∧
    (∀ k, memIndex st.userToSockets k id = false) := by
  obtain ⟨hnc, hnch, hnu, hch, hus, hcn⟩ := hInv
  constructor
  · intro k
    by_contra hne
    rw [Bool.not_eq_false] at hne
    unfold memIndex at hne
    rcases hs : mget st.channelToSockets k with _ | s
    · rw [hs] at hne
      cases hne
    · rw [hs, decide_eq_true_iff] at hne
      have := (hch (k, s) (mem_of_mget_eq_some _ _ _ hs)).2.2 id hne
      rw [connChannel, habs] at this
      cases this
  · intro k
    by_contra hne
    rw [Bool.not_eq_false] at hne
    unfold memIndex at hne
    rcases hs : mget st.userToSockets k with _ | s
    · rw [hs] at hne
      cases hne
    · rw [hs, decide_eq_true_iff] at hne
      have := (hus (k, s) (mem_of_mget_eq_some _ _ _ hs)).2.2 id hne
      rw [connUser, habs] at this
      cases this

end InvLemmas

section StatsLemmas

theorem collectUsers_fold_mem (st : Registry) (sockets : List String)
    (init : List String) (u : String) :
    u ∈ sockets.foldl (fun acc id =>
        match mget st.connections id with
        | some c => sadd acc c.userId
        | none => acc) init ↔
      u ∈ init ∨ ∃ id ∈ sockets, ∃ c, mget st.connections id = some c ∧
        c.userId = u := by
  induction sockets generalizing init with
  | nil => simp
  | cons a rest ih =>
      rw [List.foldl_cons, ih]
      rcases ha : mget st.connections a with _ | c
      · constructor
        · intro h
          rcases h with h1 | h1
          · exact Or.inl h1
          · obtain ⟨id, hid, hc⟩ := h1
            exact Or.inr ⟨id, List.mem_cons_of_mem a hid, hc⟩
        · intro h
          rcases h with h1 | ⟨id, hid, c2, hc2, hu⟩
          · exact Or.inl h1
          · rcases List.mem_cons.mp hid with hid2 | hid2
            · subst hid2
              rw [ha] at hc2
              cases hc2
            · exact Or.inr ⟨id, hid2, c2, hc2, hu⟩
      · constructor
        · intro h
          rcases h with h1 | h1
          · rcases (mem_sadd init c.userId u).mp h1 with h2 | h2
            · exact Or.inl h2
            · exact Or.inr ⟨a, List.mem_cons_self a rest, c, ha, h2.symm⟩
          · obtain ⟨id, hid, hc⟩ := h1
            exact Or.inr ⟨id, List.mem_cons_of_mem a hid, hc⟩
        · intro h
          rcases h with h1 | ⟨id, hid, c2, hc2, hu⟩
          · exact Or.inl ((mem_sadd init c.userId u).mpr (Or.inl h1))
          · rcases List.mem_cons.mp hid with hid2 | hid2
            · subst hid2
              rw [ha] at hc2
              have hc3 : c2 = c := (Option.some.inj hc2).symm
              subst hc3
              exact Or.inl ((mem_sadd init c2.userId u).mpr (Or.inr hu.symm))
            · exact Or.inr ⟨id, hid2, c2, hc2, hu⟩

theorem collectUsers_fold_nodup (st : Registry) (sockets : List String)
    (init : List String) (h : init.Nodup) :
    (sockets.foldl (fun acc id =>
        match mget st.connections id with
        | some c => sadd acc c.userId
        | none => acc) init).Nodup := by
  induction sockets generalizing init with
  | nil => exact h
  | cons a rest ih =>
      rw [List.foldl_cons]
      rcases ha : mget st.connections a with _ | c
      · exact ih init h
      · exact ih _ (nodup_sadd init c.userId h)

theorem mem_collectUsers (st : Registry) (sockets : List String) (u : String) :
    u ∈ collectUsers st sockets ↔
      ∃ id ∈ sockets, connUser st id = some u := by
  unfold collectUsers
  rw [collectUsers_fold_mem]
  simp only [List.not_mem_nil, false_or]
  constructor
  · intro ⟨id, hid, c, hc, hu⟩
    exact ⟨id, hid, by rw [connUser, hc, Option.map_some', hu]⟩
  · intro ⟨id, hid, hcu⟩
    rw [connUser, Option.map_eq_some'] at hcu
    obtain ⟨c, hc, hu⟩ := hcu
    exact ⟨id, hid, c, hc, hu⟩

theorem nodup_collectUsers (st : Registry) (sockets : List String) :
    (collectUsers st sockets).Nodup :=
  collectUsers_fold_nodup st sockets [] List.nodup_nil

end StatsLemmas

section DispatchLemmas

theorem mget_conns_remove_ne (st : Registry) (a ws : String) (h : ws ≠ a) :
    mget (removeConnection st a).connections ws = mget st.connections ws := by
  unfold removeConnection
  rcases hc : mget st.connections a with _ | c
  · rfl
  · exact mget_mdel_ne st.connections a ws h

theorem remove_self_none (st : Registry) (ws : String) (hInv : Inv st) :
    mget (removeConnection st ws).connections ws = none := by
  unfold removeConnection
  rcases hc : mget st.connections ws with _ | c
  · exact hc
  · exact mget_mdel_self st.connections ws hInv.1

theorem memIndex_pruneIndex_eq
    (idx : List (String × List String)) (pk k i id : String)
    (hnodup : (keys idx).Nodup) (hine : i ≠ id) :
    memIndex (pruneIndex idx pk id) k i = memIndex idx k i := by
  unfold pruneIndex
  rcases hs : mget idx pk with _ | s
  · rfl
  · show memIndex (if (sdel s id).isEmpty then mdel idx pk
      else mset idx pk (sdel s id)) k i = memIndex idx k i
    by_cases hk : k = pk
    · subst hk
      by_cases hemp : (sdel s id).isEmpty
      · rw [if_pos hemp]
        have hnil : sdel s id = [] := by
          cases hd : sdel s id
          · rfl
          · rw [hd] at hemp; cases hemp
        have hni : i ∉ s := fun hmem =>
          hine ((sdel_eq_nil_iff s id).mp hnil i hmem)
        unfold memIndex
        rw [mget_mdel_self idx k hnodup, hs]
        simp [hni]
      · rw [if_neg hemp]
        unfold memIndex
        rw [mget_mset_self, hs]
        simp [mem_sdel, hine]
    · by_cases hemp : (sdel s id).isEmpty
      · rw [if_pos hemp]
        unfold memIndex
        rw [mget_mdel_ne idx pk k hk]
      · rw [if_neg hemp]
        unfold memIndex
        rw [mget_mset_ne idx pk k _ hk]

theorem inUserSet_remove_ne (st : Registry) (a ws : String)
    (uidF : Option String) (hInv : Inv st) (h : ws ≠ a) :
    inUserSet (removeConnection st a) uidF ws = inUserSet st uidF ws := by
  rcases uidF with _ | uid
  · rfl
  · show memIndex (removeConnection st a).userToSockets uid ws =
      memIndex st.userToSockets uid ws
    unfold removeConnection
    rcases hc : mget st.connections a with _ | c
    · rfl
    · exact memIndex_pruneIndex_eq st.userToSockets c.userId uid ws a
        hInv.2.2.1 h

theorem removeList_preserves_inv (l : List String) (st : Registry)
    (hInv : Inv st) : Inv (removeList st l) := by
  induction l generalizing st with
  | nil => exact hInv
  | cons a rest ih =>
      exact ih (removeConnection st a) (remove_preserves_inv st a hInv)

theorem mget_conns_removeList_notmem (l : List String) (st : Registry)
    (ws : String) (h : ws ∉ l) :
    mget (removeList st l).connections ws = mget st.connections ws := by
  induction l generalizing st with
  | nil => rfl
  | cons a rest ih =>
      have hne : ws ≠ a := fun hh => h (hh ▸ List.mem_cons_self a rest)
      have hrest : ws ∉ rest := fun hh => h (List.mem_cons_of_mem a hh)
      show mget (removeList (removeConnection st a) rest).connections ws = _
      rw [ih (removeConnection st a) hrest]
      exact mget_conns_remove_ne st a ws hne

theorem mget_conns_removeList_mem (l : List String) (st : Registry)
    (ws : String) (hInv : Inv st) (h : ws ∈ l) :
    mget (removeList st l).connections ws = none := by
  induction l generalizing st with
  | nil => cases h
  | cons a rest ih =>
      show mget (removeList (removeConnection st a) rest).connections ws = none
      by_cases hr : ws ∈ rest
      · exact ih (removeConnection st a) (remove_preserves_inv st a hInv) hr
      · have hwa : ws = a := by
          rcases List.mem_cons.mp h with h1 | h1
          · exact h1
          · exact absurd h1 hr
        subst hwa
        rw [mget_conns_removeList_notmem rest (removeConnection st ws) ws hr]
        exact remove_self_none st ws hInv

theorem removeList_cons (st : Registry) (a : String) (l : List String) :
    removeList st (a :: l) = removeList (removeConnection st a) l := rfl

theorem sendLoop_spec (f : String → Bool) (uidF : Option String)
    (targets : List String) : ∀ (st : Registry), Inv st → targets.Nodup →
    (∀ ws ∈ targets, (mget st.connections ws).isSome = true) →
    sendLoop f uidF st targets =
      (removeList st (targets.filter
        (fun ws => inUserSet st uidF ws && !(f ws))),
       (targets.filter (fun ws => inUserSet st uidF ws && f ws)).length) := by
  induction targets with
  | nil =>
      intro st _ _ _
      rfl
  | cons ws rest ih =>
      intro st hInv hnodup hsome
      have hwsrest : ws ∉ rest := (List.nodup_cons.mp hnodup).1
      have hrestnodup : rest.Nodup := (List.nodup_cons.mp hnodup).2
      have hwssome := hsome ws (List.mem_cons_self ws rest)
      have hrestsome : ∀ w ∈ rest, (mget st.connections w).isSome = true :=
        fun w hw => hsome w (List.mem_cons_of_mem ws hw)
      show (if inUserSet st uidF ws && (mget st.connections ws).isSome then
          if f ws then
            ((sendLoop f uidF st rest).1, (sendLoop f uidF st rest).2 + 1)
          else sendLoop f uidF (removeConnection st ws) rest
        else sendLoop f uidF st rest) = _
      rcases hU : inUserSet st uidF ws with _ | _
      · rw [Bool.false_and, if_neg (by simp)]
        rw [List.filter_cons_of_neg (by simp [hU]),
          List.filter_cons_of_neg (by simp [hU])]
        exact ih st hInv hrestnodup hrestsome
      · rw [hwssome, Bool.true_and, if_pos rfl]
        rcases hf : f ws with _ | _
        · rw [if_neg (by simp)]
          have hInv2 := remove_preserves_inv st ws hInv
          have hrs2 : ∀ w ∈ rest,
              (mget (removeConnection st ws).connections w).isSome = true := by
            intro w hw
            have hne : w ≠ ws := fun hh => hwsrest (hh ▸ hw)
            rw [mget_conns_remove_ne st ws w hne]
            exact hrestsome w hw
          rw [ih (removeConnection st ws) hInv2 hrestnodup hrs2]
          have hfc1 : rest.filter
              (fun w => inUserSet (removeConnection st ws) uidF w && !(f w)) =
              rest.filter (fun w => inUserSet st uidF w && !(f w)) := by
            apply List.filter_congr
            intro w hw
            rw [inUserSet_remove_ne st ws w uidF hInv
              (fun hh => hwsrest (hh ▸ hw))]
          have hfc2 : rest.filter
              (fun w => inUserSet (removeConnection st ws) uidF w && f w) =
              rest.filter (fun w => inUserSet st uidF w && f w) := by
            apply List.filter_congr
            intro w hw
            rw [inUserSet_remove_ne st ws w uidF hInv
              (fun hh => hwsrest (hh ▸ hw))]
          rw [hfc1, hfc2]
          rw [List.filter_cons_of_pos (by simp [hU, hf]),
            List.filter_cons_of_neg (by simp [hU, hf])]
          rw [removeList_cons]
        · rw [if_pos rfl]
          rw [ih st hInv hrestnodup hrestsome]
          rw [List.filter_cons_of_neg (by simp [hU, hf]),
            List.filter_cons_of_pos (by simp [hU, hf])]
          rfl

theorem channel_entry_facts (st : Registry) (hInv : Inv st) (k : String)
    (s : List String) (hs : mget st.channelToSockets k = some s) :
    s.Nodup ∧ ∀ ws ∈ s, (mget st.connections ws).isSome = true := by
  have hfacts := hInv.2.2.2.1 (k, s) (mem_of_mget_eq_some _ _ _ hs)
  refine ⟨hfacts.2.1, ?_⟩
  intro ws hws
  have := hfacts.2.2 ws hws
  rw [connChannel] at this
  rcases hg : mget st.connections ws with _ | c
  · rw [hg] at this
    cases this
  · rfl

theorem user_entry_facts (st : Registry) (hInv : Inv st) (k : String)
    (s : List String) (hs : mget st.userToSockets k = some s) :
    s.Nodup ∧ ∀ ws ∈ s, (mget st.connections ws).isSome = true := by
  have hfacts := hInv.2.2.2.2.1 (k, s) (mem_of_mget_eq_some _ _ _ hs)
  refine ⟨hfacts.2.1, ?_⟩
  intro ws hws
  have := hfacts.2.2 ws hws
  rw [connUser] at this
  rcases hg : mget st.connections ws with _ | c
  · rw [hg] at this
    cases this
  · rfl

theorem handleDispatch_spec (st : Registry) (f : String → Bool)
    (channel userId : Option String) (hInv : Inv st) :
    handleDispatch st f channel userId =
      (removeList st ((specTargets st channel userId).filter
        (fun ws => !(f ws))),
       ((specTargets st channel userId).filter f).length) := by
  unfold handleDispatch specTargets
  by_cases hb : (jsTruthy channel && jsTruthy userId) = true
  · rw [if_pos hb, if_pos hb]
    have hcu := Bool.and_eq_true .. |>.mp hb
    rcases userId with _ | uid
    · cases hcu.2
    rcases hch : mget st.channelToSockets (channel.getD "") with _ | chSet <;>
      rcases hu : mget st.userToSockets ((some uid).getD "") with _ | uSet
    · rfl
    · rfl
    · rfl
    · have hfacts := channel_entry_facts st hInv (channel.getD "") chSet hch
      show sendLoop f (some uid) st chSet =
        (removeList st (List.filter (fun ws => !f ws)
          (List.filter (fun ws => decide (ws ∈ uSet)) chSet)),
         (List.filter f (List.filter (fun ws => decide (ws ∈ uSet)) chSet)).length)
      rw [sendLoop_spec f (some uid) chSet st hInv hfacts.1 hfacts.2]
      have hiu : ∀ ws, inUserSet st (some uid) ws = decide (ws ∈ uSet) := by
        intro ws
        show memIndex st.userToSockets uid ws = _
        unfold memIndex
        have huid : mget st.userToSockets uid = some uSet := hu
        rw [huid]
      have h1 : chSet.filter (fun ws => inUserSet st (some uid) ws && !(f ws)) =
          (chSet.filter (fun ws => decide (ws ∈ uSet))).filter
            (fun ws => !(f ws)) := by
        rw [List.filter_filter]
        apply List.filter_congr
        intro ws _
        rw [hiu ws, Bool.and_comm]
      have h2 : chSet.filter (fun ws => inUserSet st (some uid) ws && f ws) =
          (chSet.filter (fun ws => decide (ws ∈ uSet))).filter f := by
        rw [List.filter_filter]
        apply List.filter_congr
        intro ws _
        rw [hiu ws, Bool.and_comm]
      rw [h1, h2]
  · rw [if_neg hb, if_neg hb]
    by_cases hc : jsTruthy channel = true
    · rw [if_pos hc, if_pos hc]
      rcases hch : mget st.channelToSockets (channel.getD "") with _ | chSet
      · rfl
      · have hfacts := channel_entry_facts st hInv (channel.getD "") chSet hch
        show sendLoop f none st chSet =
          (removeList st (List.filter (fun ws => !f ws) chSet),
           (List.filter f chSet).length)
        rw [sendLoop_spec f none chSet st hInv hfacts.1 hfacts.2]
        have h1 : chSet.filter (fun ws => inUserSet st none ws && !(f ws)) =
            chSet.filter (fun ws => !(f ws)) := by
          apply List.filter_congr
          intro ws _
          rw [show inUserSet st none ws = true from rfl, Bool.true_and]
        have h2 : chSet.filter (fun ws => inUserSet st none ws && f ws) =
            chSet.filter f := by
          apply List.filter_congr
          intro ws _
          rw [show inUserSet st none ws = true from rfl, Bool.true_and]
        rw [h1, h2]
    · rw [if_neg hc, if_neg hc]
      by_cases hud : jsTruthy userId = true
      · rw [if_pos hud, if_pos hud]
        rcases huu : mget st.userToSockets (userId.getD "") with _ | uSet
        · rfl
        · have hfacts := user_entry_facts st hInv (userId.getD "") uSet huu
          show sendLoop f none st uSet =
            (removeList st (List.filter (fun ws => !f ws) uSet),
             (List.filter f uSet).length)
          rw [sendLoop_spec f none uSet st hInv hfacts.1 hfacts.2]
          have h1 : uSet.filter (fun ws => inUserSet st none ws && !(f ws)) =
              uSet.filter (fun ws => !(f ws)) := by
            apply List.filter_congr
            intro ws _
            rw [show inUserSet st none ws = true from rfl, Bool.true_and]
          have h2 : uSet.filter (fun ws => inUserSet st none ws && f ws) =
              uSet.filter f := by
            apply List.filter_congr
            intro ws _
            rw [show inUserSet st none ws = true from rfl, Bool.true_and]
          rw [h1, h2]
      · rw [if_neg hud, if_neg hud]
        rfl

end DispatchLemmas

/-- C1 counterexample: a postback whose destination fails on every attempt is
terminal `failed` with `retries = 3` after the third execution attempt (the
second retry) — after only two failing attempts it is still `pending`, and
once `failed` it is never eligible again — so it does not take "exactly 3
retry attempts, i.e. 4 total execution attempts" as the claim states: a
fourth execution can never happen. -/
theorem claim_C1_counterexample :
    (failedAttempt (failedAttempt
      ({ status := QStatus.pending, retries := 0, createdAt := 0 } : QItem))).status =
        QStatus.pending ∧
    (failedAttempt (failedAttempt (failedAttempt
      ({ status := QStatus.pending, retries := 0, createdAt := 0 } : QItem)))).status =
        QStatus.failed ∧
    (failedAttempt (failedAttempt (failedAttempt
      ({ status := QStatus.pending, retries := 0, createdAt := 0 } : QItem)))).retries = 3 ∧
    (∀ b : Bool,
      eligibleB (failedAttempt (failedAttempt (failedAttempt
        ({ status := QStatus.pending, retries := 0, createdAt := 0 } : QItem)))) b = false) := by
  refine ⟨rfl, rfl, rfl, ?_⟩
  intro b
  rfl

/-- C1 (amended): for every freshly enqueued item whose destination fails on
every attempt, the in-memory engine brings the item to terminal status
`failed` with `retries = 3` after exactly 2 retry attempts, i.e. 3 total
execution attempts (it is still `pending` after attempts 1 and 2), and once
`failed` it is never picked up by any scheduling pass again. The worker
deployment computes the same status/retries transition when the failure is a
non-2xx response, and a `failed` row is terminal there too (every further
delivery is acked without any update); but a thrown transport/timeout error
in the worker is retried with no database update, leaving the row in
`processing`, and every redelivery of such a row is then acked unchanged by
the status guard — the item is stranded in `processing` and never reaches
`failed` on that path. -/
theorem claim_C1_theorem (it : QItem) (h0 : it.retries = 0) :
    (failedAttempt it).status = QStatus.pending ∧
    (failedAttempt it).retries = 1 ∧
    (failedAttempt (failedAttempt it)).status = QStatus.pending ∧
    (failedAttempt (failedAttempt it)).retries = 2 ∧
    (failedAttempt (failedAttempt (failedAttempt it))).status = QStatus.failed ∧
    (failedAttempt (failedAttempt (failedAttempt it))).retries = 3 ∧
    (∀ b : Bool,
      eligibleB (failedAttempt (failedAttempt (failedAttempt it))) b = false) ∧
    (∀ r : Nat,
      (workerConsume (some { status := QStatus.pending, retries := r })
          WorkerOutcome.errorStatus).1 =
        some ⟨(applyFailure ⟨QStatus.processing, r, 0⟩).status,
              (applyFailure ⟨QStatus.processing, r, 0⟩).retries⟩) ∧
    (∀ o, workerConsume (some { status := QStatus.failed, retries := 3 }) o =
      (some { status := QStatus.failed, retries := 3 }, true)) ∧
    (∀ r : Nat,
      workerConsume (some { status := QStatus.pending, retries := r })
        WorkerOutcome.thrown =
      (some { status := QStatus.processing, retries := r }, false)) ∧
    (∀ (r : Nat) (o : WorkerOutcome),
      workerConsume (some { status := QStatus.processing, retries := r }) o =
      (some { status := QStatus.processing, retries := r }, true)) := by
  obtain ⟨s, r, c⟩ := it
  have h0' : r = 0 := h0
  subst h0'
  refine ⟨rfl, rfl, rfl, rfl, rfl, rfl, fun b => rfl, ?_, fun o => rfl,
    fun r => rfl, fun r o => rfl⟩
  intro r
  by_cases h : r + 1 ≥ 3
  · have h2 : ¬ (r + 1 < 3) := by omega
    simp [workerConsume, applyFailure, maxRetriesQ, h, h2]
  · have h2 : r + 1 < 3 := by omega
    simp [workerConsume, applyFailure, maxRetriesQ, h, h2]

/-- C1 witness: the amended theorem evaluated on a concrete fresh item. -/
theorem claim_C1_witness :
    (failedAttempt (failedAttempt (failedAttempt
      ({ status := QStatus.pending, retries := 0, createdAt := 0 } : QItem)))).status =
      QStatus.failed :=
  (claim_C1_theorem { status := QStatus.pending, retries := 0, createdAt := 0 }
    rfl).2.2.2.2.1

/-- C4 code bug, evaluated at the failing input: after a first failing
attempt the `catch` branch does schedule the linear-backoff timer
(`RETRY_DELAY * retries` = 1000 ms for retry 1, 2000 ms for retry 2), but the
`finally` block of `processPostback` deletes the item from the `processing`
set immediately when the attempt settles, so the item — now `pending` and not
in flight — is eligible for the very next scheduling pass (for example one
triggered by a concurrent `enqueue`) before the delay expires, contradicting
the claim that it is not picked up before the delay. -/
theorem claim_C4_code_eval :
    processPostbackFail ⟨{ status := QStatus.pending, retries := 0, createdAt := 0 }, false⟩ =
      (⟨{ status := QStatus.pending, retries := 1, createdAt := 0 }, false⟩,
        some (retryDelayQ * 1)) ∧
    eligibleB { status := QStatus.pending, retries := 1, createdAt := 0 } false = true ∧
    (processPostbackFail
      ⟨{ status := QStatus.pending, retries := 1, createdAt := 0 }, false⟩).2 =
      some (retryDelayQ * 2) := by
  refine ⟨?_, rfl, ?_⟩ <;> decide

/-- C7: `cleanup` keeps exactly the items that are not (terminal and strictly
older than `olderThanMs`); removed items are exactly the `completed`/`failed`
ones whose age exceeds the bound, `pending`/`processing` items are retained
regardless of age, and retained items are unchanged. -/
theorem claim_C7_theorem (q : List (String × QItem)) (now olderThanMs : Int)
    (id : String) (it : QItem) (h : (keys q).Nodup) :
    mget (cleanup q now olderThanMs) id = some it ↔
      (mget q id = some it ∧
        ¬(terminalB it.status = true ∧ now - it.createdAt > olderThanMs)) := by
  unfold cleanup
  rw [mget_foldl_mdel _ _ _ h]
  by_cases hmem : id ∈ (q.filter (fun p =>
      terminalB p.2.status && decide (now - p.2.createdAt > olderThanMs))).map Prod.fst
  · rw [if_pos hmem]
    constructor
    · intro hfalse
      cases hfalse
    · intro ⟨hq, hcond⟩
      obtain ⟨p, hp, hpid⟩ := List.mem_map.mp hmem
      have hpf := List.mem_filter.mp hp
      have hpq : (id, p.2) ∈ q := by
        rw [← hpid]
        exact (Prod.mk.eta (p := p)) ▸ hpf.1
      have hg : mget q id = some p.2 := mget_eq_some_of_mem q id p.2 h hpq
      rw [hq] at hg
      have hit : it = p.2 := Option.some.injEq .. ▸ hg
      have hc := hpf.2
      rw [Bool.and_eq_true, decide_eq_true_iff] at hc
      exact absurd ⟨hit ▸ hc.1, hit ▸ hc.2⟩ hcond
  · rw [if_neg hmem]
    constructor
    · intro hq
      refine ⟨hq, ?_⟩
      intro ⟨ht, hage⟩
      apply hmem
      refine List.mem_map.mpr ⟨(id, it), ?_, rfl⟩
      refine List.mem_filter.mpr ⟨mem_of_mget_eq_some q id it hq, ?_⟩
      rw [Bool.and_eq_true, decide_eq_true_iff]
      exact ⟨ht, hage⟩
    · exact fun hq => hq.1

/-- C7 witness: a concrete queue where cleanup keeps a fresh completed item,
keeps an old pending item, and drops an old failed item. -/
theorem claim_C7_witness :
    (mget (cleanup
        [("a", { status := QStatus.failed, retries := 3, createdAt := 0 }),
         ("b", { status := QStatus.pending, retries := 0, createdAt := 0 }),
         ("c", { status := QStatus.completed, retries := 0, createdAt := 7000000 })]
        7200000 3600000) "b" =
      some { status := QStatus.pending, retries := 0, createdAt := 0 }) ∧
    ¬ (mget (cleanup
        [("a", { status := QStatus.failed, retries := 3, createdAt := 0 }),
         ("b", { status := QStatus.pending, retries := 0, createdAt := 0 }),
         ("c", { status := QStatus.completed, retries := 0, createdAt := 7000000 })]
        7200000 3600000) "a" =
      some { status := QStatus.failed, retries := 3, createdAt := 0 }) := by
  constructor
  · exact (claim_C7_theorem _ 7200000 3600000 "b"
      { status := QStatus.pending, retries := 0, createdAt := 0 } (by decide)).mpr
      ⟨by decide, by decide⟩
  · intro hcontra
    have := (claim_C7_theorem _ 7200000 3600000 "a"
      { status := QStatus.failed, retries := 3, createdAt := 0 } (by decide)).mp hcontra
    exact this.2 (by decide)

/-- C8: `enqueue` returns the generated id synchronously, the stored item has
status `pending` and `retries = 0`, and any status reachable before an HTTP
response or timeout event arrives is `pending` or `processing` — never
`completed` or `failed`, so no job completes synchronously with enqueue. -/
theorem claim_C8_theorem (q : List (String × QItem)) (id : String) (now : Int) :
    (enqueue q id now).1 = id ∧
    getStatus (enqueue q id now).2 id =
      some { status := QStatus.pending, retries := 0, createdAt := now } ∧
    (∀ it : QItem,
      ReachNoResp { status := QStatus.pending, retries := 0, createdAt := now } it →
      it.status = QStatus.pending ∨ it.status = QStatus.processing) := by
  refine ⟨rfl, ?_, ?_⟩
  · show mget (mset q id _) id = _
    exact mget_mset_self q id _
  · intro it hreach
    induction hreach with
    | refl => exact Or.inl rfl
    | step b hab hb ih => exact Or.inr rfl

/-- C8 witness: the theorem evaluated on the empty queue, with a one-step
reachability derivation (scheduler picks the fresh item up). -/
theorem claim_C8_witness :
    ({ status := QStatus.processing, retries := 0, createdAt := 0 } : QItem).status =
      QStatus.pending ∨
    ({ status := QStatus.processing, retries := 0, createdAt := 0 } : QItem).status =
      QStatus.processing :=
  (claim_C8_theorem [] "job1" 0).2.2 _
    (ReachNoResp.step _ _ (ReachNoResp.refl _) rfl)

/-- C3: the Registry invariant — unique keys; every index entry is non-empty
and duplicate-free and its members are present in the primary table under
exactly that channel (resp. user) key; every connection appears in its
channel's and its user's index set — holds initially and is preserved by
every completed registration (of a fresh connection id, as socket.io's
`socket.id` and the durable object's fresh `WebSocketPair` keys always are)
and by every completed removal; consequently a registered id is a member of
an index entry if and only if that entry is the one for its own channel
(resp. user), i.e. it appears in exactly one entry of each index. -/
theorem claim_C3_theorem :
    Inv Registry.empty ∧
    (∀ (st : Registry) (id ch uid : String) (t : Int), Inv st →
      mget st.connections id = none → Inv (register st id ch uid t)) ∧
    (∀ (st : Registry) (id : String), Inv st → Inv (removeConnection st id)) ∧
    (∀ (st : Registry), Inv st → ∀ id c, mget st.connections id = some c →
      (∀ p ∈ st.channelToSockets, (id ∈ p.2 ↔ p.1 = c.channel)) ∧
      (∀ p ∈ st.userToSockets, (id ∈ p.2 ↔ p.1 = c.userId))) := by
  refine ⟨inv_empty,
    fun st id ch uid t h hf => register_preserves_inv st id ch uid t h hf,
    fun st id h => remove_preserves_inv st id h, ?_⟩
  intro st hInv id c hc
  obtain ⟨hnc, hnch, hnu, hch, hus, hcn⟩ := hInv
  have hcn2 := hcn (id, c) (mem_of_mget_eq_some _ _ _ hc)
  constructor
  · intro p hp
    constructor
    · intro hid
      have hcc := (hch p hp).2.2 id hid
      rw [connChannel, hc] at hcc
      have hcc2 : some c.channel = some p.1 := hcc
      exact (Option.some.inj hcc2).symm
    · intro hpk
      have hmi := hcn2.1
      unfold memIndex at hmi
      rcases hse : mget st.channelToSockets c.channel with _ | s
      · rw [hse] at hmi
        cases hmi
      · rw [hse, decide_eq_true_iff] at hmi
        have hpv : mget st.channelToSockets p.1 = some p.2 :=
          mget_eq_some_of_mem _ _ _ hnch (Prod.mk.eta (p := p) ▸ hp)
        rw [hpk, hse] at hpv
        exact (Option.some.inj hpv) ▸ hmi
  · intro p hp
    constructor
    · intro hid
      have hcc := (hus p hp).2.2 id hid
      rw [connUser, hc] at hcc
      have hcc2 : some c.userId = some p.1 := hcc
      exact (Option.some.inj hcc2).symm
    · intro hpk
      have hmi := hcn2.2
      unfold memIndex at hmi
      rcases hse : mget st.userToSockets c.userId with _ | s
      · rw [hse] at hmi
        cases hmi
      · rw [hse, decide_eq_true_iff] at hmi
        have hpv : mget st.userToSockets p.1 = some p.2 :=
          mget_eq_some_of_mem _ _ _ hnu (Prod.mk.eta (p := p) ▸ hp)
        rw [hpk, hse] at hpv
        exact (Option.some.inj hpv) ▸ hmi

/-- C3 witness: the invariant evaluated through a concrete register-remove
sequence from the empty Registry. -/
theorem claim_C3_witness :
    Inv (removeConnection (register Registry.empty "s1" "c1" "u1" 0) "s1") :=
  claim_C3_theorem.2.2.1 (register Registry.empty "s1" "c1" "u1" 0) "s1"
    (claim_C3_theorem.2.1 Registry.empty "s1" "c1" "u1" 0 claim_C3_theorem.1
      (by decide))

/-- C9: removing an unknown id is a no-op on the whole Registry and raises
no error; removing a present id deletes it from the primary table and from
every channel-index and user-index entry, and never leaves an empty index
set behind. -/
theorem claim_C9_theorem (st : Registry) (id : String) :
    (mget st.connections id = none → removeConnection st id = st) ∧
    (Inv st → ∀ c, mget st.connections id = some c →
      mget (removeConnection st id).connections id = none ∧
      (∀ k, memIndex (removeConnection st id).channelToSockets k id = false) ∧
      (∀ k, memIndex (removeConnection st id).userToSockets k id = false) ∧
      (∀ p ∈ (removeConnection st id).channelToSockets, p.2 ≠ []) ∧
      (∀ p ∈ (removeConnection st id).userToSockets, p.2 ≠ [])) := by
  constructor
  · intro h
    unfold removeConnection
    rw [h]
  · intro hInv c hc
    have hInv2 := remove_preserves_inv st id hInv
    have habs : mget (removeConnection st id).connections id = none := by
      unfold removeConnection
      rw [hc]
      exact mget_mdel_self st.connections id hInv.1
    have hidx := memIndex_false_of_absent (removeConnection st id) id hInv2 habs
    exact ⟨habs, hidx.1, hidx.2,
      fun p hp => (hInv2.2.2.2.1 p hp).1,
      fun p hp => (hInv2.2.2.2.2.1 p hp).1⟩

/-- C9 witness: removing an unknown id from the empty Registry is a no-op,
and removing a concrete registered id erases it everywhere. -/
theorem claim_C9_witness :
    removeConnection Registry.empty "ghost" = Registry.empty ∧
    mget (removeConnection (register Registry.empty "s1" "c1" "u1" 0)
      "s1").connections "s1" = none :=
  ⟨(claim_C9_theorem Registry.empty "ghost").1 (by decide),
    (((claim_C9_theorem (register Registry.empty "s1" "c1" "u1" 0) "s1").2
      (by decide) { channel := "c1", userId := "u1", connectedAt := 0 }
      (by decide)).1)⟩

/-- C10: the channel-stats query is total — for a channel with no index entry
(never registered, or emptied out) it answers `userCount = 0` and
`socketCount = 0` instead of an error — and for any channel, `socketCount`
is the index set size and `userCount` is the number of distinct `userId`
values among the members of the channel's set that are still present in the
primary table. -/
theorem claim_C10_theorem (st : Registry) (ch : String) :
    (mget st.channelToSockets ch = none → getChannelStats st ch = (0, 0)) ∧
    (getChannelStats st ch).2 = ((mget st.channelToSockets ch).getD []).length ∧
    (getChannelStats st ch).1 =
      ((((mget st.channelToSockets ch).getD []).filterMap
        (fun id => connUser st id)).toFinset).card := by
  refine ⟨?_, rfl, ?_⟩
  · intro h
    unfold getChannelStats
    rw [h]
    rfl
  · show (collectUsers st ((mget st.channelToSockets ch).getD [])).length = _
    have hnodup := nodup_collectUsers st ((mget st.channelToSockets ch).getD [])
    rw [← List.toFinset_card_of_nodup hnodup]
    congr 1
    apply Finset.ext
    intro u
    rw [List.mem_toFinset, List.mem_toFinset, mem_collectUsers,
      List.mem_filterMap]

/-- C10 witness: the stats of a never-registered channel on the empty
Registry. -/
theorem claim_C10_witness : getChannelStats Registry.empty "nochan" = (0, 0) :=
  (claim_C10_theorem Registry.empty "nochan").1 (by decide)

/-- C5 counterexample: the generated suffix is
`Math.random().toString(36).substring(2, 11)`, which is not "exactly 8
base-36 characters": for the representable random value 0.5 the random
string is "0.i" and the suffix has length 1, and for a typical random string
with at least 9 fraction digits the suffix has length 9 — in neither case 8. -/
theorem claim_C5_counterexample :
    (randSuffix "0.i").length = 1 ∧
    (randSuffix "0.abcdefghij").length = 9 ∧
    resolveChannel none "0.i" = "channel-i" ∧
    ("channel-i" : String).length ≠ ("channel-" : String).length + 8 := by
  refine ⟨by decide, by decide, ?_, by decide⟩
  decide

/-- C5 (amended): when the caller-supplied channel (resp. userId) is absent
or blank after trimming, the Registry uses the generated identifier — the
fixed prefix followed by up to 9 random base-36 characters (exactly 9
whenever the random string has at least 11 characters, i.e. at least 9
fraction digits); a non-blank caller-supplied value is used as given after
trimming. -/
theorem claim_C5_theorem (raw : Option String) (randStr : String) :
    (jsTrim (raw.getD "") = "" →
      resolveChannel raw randStr = generateChannel randStr ∧
      resolveUserId raw randStr = generateUserId randStr) ∧
    (jsTrim (raw.getD "") ≠ "" →
      resolveChannel raw randStr = jsTrim (raw.getD "") ∧
      resolveUserId raw randStr = jsTrim (raw.getD "")) ∧
    generateChannel randStr = "channel-" ++ randSuffix randStr ∧
    generateUserId randStr = "user-" ++ randSuffix randStr ∧
    (randSuffix randStr).length ≤ 9 ∧
    (11 ≤ randStr.length → (randSuffix randStr).length = 9) := by
  refine ⟨?_, ?_, rfl, rfl, ?_, ?_⟩
  · intro h
    constructor
    · unfold resolveChannel
      rw [if_pos h]
    · unfold resolveUserId
      rw [if_pos h]
  · intro h
    constructor
    · unfold resolveChannel
      rw [if_neg h]
    · unfold resolveUserId
      rw [if_neg h]
  · show ((randStr.toList.drop 2).take (11 - 2)).length ≤ 9
    rw [List.length_take]
    exact min_le_left _ _
  · intro h
    show ((randStr.toList.drop 2).take (11 - 2)).length = 9
    rw [List.length_take, List.length_drop]
    have hlen : randStr.toList.length = randStr.length := rfl
    omega

/-- C5 witness: a blank supplied channel falls back to the generated id, a
non-blank one is used after trimming, and a typical random string yields a
9-character suffix. -/
theorem claim_C5_witness :
    resolveChannel (some "  ") "0.abcdefghij" = generateChannel "0.abcdefghij" ∧
    resolveChannel (some " room1 ") "0.abcdefghij" = "room1" ∧
    (randSuffix "0.abcdefghij").length = 9 := by
  refine ⟨((claim_C5_theorem (some "  ") "0.abcdefghij").1 (by decide)).1, ?_,
    (claim_C5_theorem none "0.abcdefghij").2.2.2.2.2 (by decide)⟩
  have h := ((claim_C5_theorem (some " room1 ") "0.abcdefghij").2.1
    (by decide)).1
  rw [h]
  decide

/-- C6: the dispatch route rejects a request with neither targeting field
(truthily) present before any Registry lookup, and otherwise forwards to the
dispatch engine, whose delivered count over the resolved targets — for every
possible push-outcome predicate — is that of the spec's precedence: both
fields given targets the intersection of the channel index set and the user
index set, channel only targets the whole channel set, user only targets the
whole user set across channels. -/
theorem claim_C6_theorem (st : Registry) (channel userId : Option String)
    (hInv : Inv st) :
    (jsTruthy channel = false → jsTruthy userId = false →
      ∀ f, dispatchRoute st f channel userId = Except.error "BAD_REQUEST") ∧
    ((jsTruthy channel = true ∨ jsTruthy userId = true) →
      ∀ f, dispatchRoute st f channel userId =
        Except.ok (handleDispatch st f channel userId)) ∧
    (∀ f, (handleDispatch st f channel userId).2 =
      ((specTargets st channel userId).filter f).length) ∧
    (jsTruthy channel = true → jsTruthy userId = true →
      ∀ chSet uSet, mget st.channelToSockets (channel.getD "") = some chSet →
        mget st.userToSockets (userId.getD "") = some uSet →
        specTargets st channel userId =
          chSet.filter (fun ws => decide (ws ∈ uSet))) ∧
    (jsTruthy channel = true → jsTruthy userId = false →
      specTargets st channel userId =
        (mget st.channelToSockets (channel.getD "")).getD []) ∧
    (jsTruthy channel = false → jsTruthy userId = true →
      specTargets st channel userId =
        (mget st.userToSockets (userId.getD "")).getD []) := by
  refine ⟨?_, ?_, ?_, ?_, ?_, ?_⟩
  · intro hc hu f
    unfold dispatchRoute
    rw [if_pos (by rw [hc, hu]; rfl)]
  · intro hor f
    unfold dispatchRoute
    rw [if_neg ?_]
    rcases hor with h | h <;> rw [h] <;> simp
  · intro f
    rw [handleDispatch_spec st f channel userId hInv]
  · intro hc hu chSet uSet hch huu
    unfold specTargets
    rw [if_pos (by rw [hc, hu]; rfl), hch, huu]
  · intro hc hu
    unfold specTargets
    rw [if_neg (by rw [hc, hu]; simp), if_pos hc]
  · intro hc hu
    unfold specTargets
    rw [if_neg (by rw [hc, hu]; simp), if_neg (by rw [hc]; simp), if_pos hu]

/-- C6 witness: on a concrete two-connection Registry, a dispatch with no
targeting fields is rejected, and a channel-only dispatch counts both
channel members. -/
theorem claim_C6_witness :
    dispatchRoute (register (register Registry.empty "s1" "c1" "u1" 0)
      "s2" "c1" "u2" 0) (fun _ => true) none none =
      Except.error "BAD_REQUEST" ∧
    (handleDispatch (register (register Registry.empty "s1" "c1" "u1" 0)
      "s2" "c1" "u2" 0) (fun _ => true) (some "c1") none).2 = 2 := by
  constructor
  · exact (claim_C6_theorem (register (register Registry.empty "s1" "c1" "u1" 0)
      "s2" "c1" "u2" 0) none none (by decide)).1 rfl rfl (fun _ => true)
  · rw [(claim_C6_theorem (register (register Registry.empty "s1" "c1" "u1" 0)
      "s2" "c1" "u2" 0) (some "c1") none (by decide)).2.2.1 (fun _ => true)]
    decide

/-- C2 counterexample: the Socket.IO deployment's `dispatchToChannel` returns
the channel target-set size and never touches the Registry. With one
registered connection in the channel whose push would fail (its handle is no
longer writable, so every push fails), the returned count is 1 while the
number of successful pushes is 0, and the stale connection is not removed
(the function reads the Registry without mutating it). -/
theorem claim_C2_counterexample :
    dispatchToChannel (register Registry.empty "s1" "c1" "u1" 0) "c1" = 1 ∧
    specDeliveredCount
      ((mget (register Registry.empty "s1" "c1" "u1" 0).channelToSockets
        "c1").getD []) (fun _ => false) = 0 ∧
    (1 : Nat) ≠ 0 := by
  decide

/-- C2 (amended): in the `SocketManager` (durable object) implementation,
the delivered count of every dispatch equals the number of successful pushes
over the resolved target set — not the target-set size — and every target
whose push fails is removed from all three Registry structures while
delivery continues to the remaining targets (every successful target is
still counted) and successfully pushed targets are untouched; the Socket.IO
implementation's `dispatchToChannel` instead returns the target-set size and
performs no removal (see the counterexample). -/
theorem claim_C2_theorem (st : Registry) (f : String → Bool)
    (channel userId : Option String) (hInv : Inv st) :
    (handleDispatch st f channel userId).2 =
      ((specTargets st channel userId).filter f).length ∧
    Inv (handleDispatch st f channel userId).1 ∧
    (∀ ws ∈ specTargets st channel userId, f ws = false →
      mget (handleDispatch st f channel userId).1.connections ws = none ∧
      (∀ k, memIndex (handleDispatch st f channel userId).1.channelToSockets
        k ws = false) ∧
      (∀ k, memIndex (handleDispatch st f channel userId).1.userToSockets
        k ws = false)) ∧
    (∀ ws ∈ specTargets st channel userId, f ws = true →
      mget (handleDispatch st f channel userId).1.connections ws =
        mget st.connections ws) := by
  rw [handleDispatch_spec st f channel userId hInv]
  have hInv2 : Inv (removeList st ((specTargets st channel userId).filter
      (fun ws => !(f ws)))) :=
    removeList_preserves_inv _ st hInv
  refine ⟨rfl, hInv2, ?_, ?_⟩
  · intro ws hws hf
    have hmem : ws ∈ (specTargets st channel userId).filter
        (fun ws => !(f ws)) :=
      List.mem_filter.mpr ⟨hws, by rw [hf]; rfl⟩
    have habs := mget_conns_removeList_mem _ st ws hInv hmem
    have hidx := memIndex_false_of_absent _ ws hInv2 habs
    exact ⟨habs, hidx.1, hidx.2⟩
  · intro ws hws hf
    have hnmem : ws ∉ (specTargets st channel userId).filter
        (fun ws => !(f ws)) := by
      intro hmem
      have := (List.mem_filter.mp hmem).2
      rw [hf] at this
      cases this
    exact mget_conns_removeList_notmem _ st ws hnmem

/-- C2 witness: a channel dispatch over a two-connection Registry where one
push fails — the count is the single successful push and the failed
connection is removed from the primary table. -/
theorem claim_C2_witness :
    (handleDispatch (register (register Registry.empty "s1" "c1" "u1" 0)
      "s2" "c1" "u2" 0) (fun ws => ws == "s2") (some "c1") none).2 = 1 ∧
    mget (handleDispatch (register (register Registry.empty "s1" "c1" "u1" 0)
      "s2" "c1" "u2" 0) (fun ws => ws == "s2") (some "c1")
      none).1.connections "s1" = none := by
  constructor
  · rw [(claim_C2_theorem (register (register Registry.empty "s1" "c1" "u1" 0)
      "s2" "c1" "u2" 0) (fun ws => ws == "s2") (some "c1") none
      (by decide)).1]
    decide
  · exact ((claim_C2_theorem (register (register Registry.empty "s1" "c1" "u1" 0)
      "s2" "c1" "u2" 0) (fun ws => ws == "s2") (some "c1") none
      (by decide)).2.2.1 "s1" (by decide) (by decide)).1

end QSP
